import Mathlib

/-!
Shallow embedding of the connection-pool core of the MeteoAPI repository
(`src/app/database/connection_pool.py` and the registry getters in
`src/app/database/connection.py`), together with theorems settling the
frozen claims about it.

Modelling conventions:
* Machine time (`time.time()`) is an integer `Int`; the environment supplies
  the clock value observed at each loop iteration.
* A connection is identified by a `Nat` (Python object identity `id(conn)`);
  fresh identities are produced from the `next_id` counter of the pool state.
* Driver-owned behaviour (`connection.open`, `connection.ping()`) is an oracle
  `ConnEnv`; a `ping` that raises is `pingOk = false`, matching the
  `except Exception: return False` in `_is_connection_valid`.
* The `_connection_times` dict is an association list `TimeMap`.
* Effects on the external database (socket close, rollback, commit) are
  recorded as `PoolEvent`s so theorems can speak about their order.
-/

namespace MeteoAPI

abbrev TimeMap := List (Nat × Int)

/-- Lookup in the `_connection_times` dict. -/
def tmLookup : TimeMap → Nat → Option Int
  | [], _ => none
  | (k, v) :: rest, c => if k = c then some v else tmLookup rest c

/-- Deletion from the `_connection_times` dict (`del self._connection_times[conn_id]`). -/
def tmErase : TimeMap → Nat → TimeMap
  | [], _ => []
  | (k, v) :: rest, c => if k = c then tmErase rest c else (k, v) :: tmErase rest c

/-- Assignment `self._connection_times[conn_id] = t`. -/
def tmInsert (m : TimeMap) (c : Nat) (t : Int) : TimeMap :=
  (c, t) :: tmErase m c

/-- Driver-owned connection behaviour observed by the pool:
`isOpen c` is `connection.open`, `pingOk c` is whether
`connection.ping(reconnect=False)` succeeds. -/
structure ConnEnv where
  isOpen : Nat → Bool
  pingOk : Nat → Bool

/-- State of `ConnectionPool`: the idle queue `_pool` (FIFO, head is next out,
`put` appends at the back), `_active_connections`, `_connection_times`,
`_closed`, the configuration fields, and a fresh-identity counter standing for
Python object identity of newly created connections. -/
structure PoolState where
  pool : List Nat
  active_connections : Int
  connection_times : TimeMap
  closed : Bool
  max_connections : Nat
  min_connections : Nat
  max_idle_time : Int
  next_id : Nat
deriving DecidableEq

/-- External effects of pool operations, in the order the code performs them. -/
inductive PoolEvent
  | validate (c : Nat) (ok : Bool)
  | destroy (c : Nat)
  | create (c : Nat)
  | createFail
  | handout (c : Nat)
  | enqueue (c : Nat)
  | rollback (c : Nat)
  | commit (c : Nat)
deriving DecidableEq

/-- The two exceptions `get_connection` raises (`RuntimeError` on a closed
pool, `TimeoutError` on expiry), plus the creation error that
`_create_connection` can raise internally. -/
inductive PoolError
  | poolClosed
  | acquireTimeout
  | creationError
deriving DecidableEq

/-- Embeds `ConnectionPool._is_connection_valid`: false when the connection is not
open, when the ping probe fails, or when a recorded last-activity timestamp is
more than `max_idle_time` in the past; true otherwise.  Total (never raises):
probe failures are the oracle returning false. -/
def is_connection_valid (env : ConnEnv) (now : Int) (st : PoolState) (c : Nat) : Bool :=
  env.isOpen c && env.pingOk c &&
    (match tmLookup st.connection_times c with
     | some t => decide (now - t ≤ st.max_idle_time)
     | none => true)

/-- Embeds `ConnectionPool._close_connection`: removes the connection's
`_connection_times` entry (the socket close is an external effect). -/
def close_connection (st : PoolState) (c : Nat) : PoolState :=
  { st with connection_times := tmErase st.connection_times c }

/-- Python `queue.Queue(maxsize=max_connections)` raises `queue.Full` on a
non-blocking put exactly when `maxsize > 0` and the queue holds at least
`maxsize` items. -/
def queue_full (st : PoolState) : Bool :=
  0 < st.max_connections && st.max_connections ≤ st.pool.length

/-- Environment observations of one iteration of `get_connection`'s retry
loop: the clock value at the loop guard, and whether `_create_connection`
would succeed if attempted at this iteration. -/
structure IterEnv where
  now : Int
  createOk : Bool
deriving DecidableEq

/-- The `while time.time() - start_time < timeout` retry loop of
`ConnectionPool.get_connection`, one `IterEnv` per iteration.  Each iteration:
non-blocking pop from the idle queue; a popped connection is validated and on
success stamped and handed out, on failure destroyed with
`_active_connections -= 1` and the loop continues; on `queue.Empty`, when
`_active_connections < max_connections` a creation is attempted (success hands
out a fresh connection and increments the counter, failure is absorbed and the
loop continues after a brief sleep), and a saturated pool just sleeps and
retries.  An exhausted schedule, like a failed guard, ends in `TimeoutError`. -/
def get_connection_loop (env : ConnEnv) (start timeout : Int) (st : PoolState) :
    List IterEnv → Except PoolError Nat × PoolState × List PoolEvent
  | [] => (.error .acquireTimeout, st, [])
  | step :: rest =>
    if step.now - start < timeout then
      match st.pool with
      | c :: ps =>
        if is_connection_valid env step.now st c then
          (.ok c,
           { st with pool := ps,
                     connection_times := tmInsert st.connection_times c step.now },
           [.validate c true, .handout c])
        else
          let st' := close_connection
            { st with pool := ps, active_connections := st.active_connections - 1 } c
          let r := get_connection_loop env start timeout st' rest
          (r.1, r.2.1, .validate c false :: .destroy c :: r.2.2)
      | [] =>
        if st.active_connections < (st.max_connections : Int) then
          if step.createOk then
            let c := st.next_id
            (.ok c,
             { st with connection_times := tmInsert st.connection_times c step.now,
                       active_connections := st.active_connections + 1,
                       next_id := st.next_id + 1 },
             [.create c, .handout c])
          else
            let r := get_connection_loop env start timeout st rest
            (r.1, r.2.1, .createFail :: r.2.2)
        else
          get_connection_loop env start timeout st rest
    else (.error .acquireTimeout, st, [])

/-- Embeds `ConnectionPool.get_connection`: raises on a closed pool, otherwise runs
the retry loop. -/
def get_connection (env : ConnEnv) (steps : List IterEnv) (start timeout : Int)
    (st : PoolState) : Except PoolError Nat × PoolState × List PoolEvent :=
  if st.closed then (.error .poolClosed, st, [])
  else get_connection_loop env start timeout st steps

/-- Embeds `ConnectionPool.return_connection`: on a closed pool the connection is just
closed; otherwise it is validated first, and if valid the code rolls back (when
the connection is open) and non-blocking-puts it into the idle queue, closing
it with `_active_connections -= 1` if the queue is full; an invalid connection
is closed with `_active_connections -= 1`. -/
def return_connection (env : ConnEnv) (now : Int) (st : PoolState) (c : Nat) :
    PoolState × List PoolEvent :=
  if st.closed then
    (close_connection st c, [.destroy c])
  else if is_connection_valid env now st c then
    let rbTrace := if env.isOpen c then [PoolEvent.rollback c] else []
    if queue_full st then
      (close_connection { st with active_connections := st.active_connections - 1 } c,
       .validate c true :: rbTrace ++ [.destroy c])
    else
      ({ st with pool := st.pool ++ [c] },
       .validate c true :: rbTrace ++ [.enqueue c])
  else
    (close_connection { st with active_connections := st.active_connections - 1 } c,
     [.validate c false, .destroy c])

/-- One attempt of `ConnectionPool._initialize_pool`'s loop body: a successful
creation stamps the fresh connection, puts it into the queue and increments
`_active_connections`; a failed creation (or a full queue, whose
`queue.Full` the broad `except` also absorbs after the stamp) is skipped. -/
def init_pool_step (now : Int) (st : PoolState) (createOk : Bool) : PoolState :=
  if createOk then
    let c := st.next_id
    if queue_full st then
      { st with connection_times := tmInsert st.connection_times c now,
                next_id := c + 1 }
    else
      { st with pool := st.pool ++ [c],
                active_connections := st.active_connections + 1,
                connection_times := tmInsert st.connection_times c now,
                next_id := c + 1 }
  else st

/-- Embeds `ConnectionPool._initialize_pool`: one creation attempt per
`min_connections`, each outcome drawn from the oracle list. -/
def init_pool (oks : List Bool) (now : Int) (st : PoolState) : PoolState :=
  List.foldl (init_pool_step now) st oks

/-- Embeds `ConnectionPool.__init__` with `min_connections = minC`,
`max_connections = maxC`, `max_idle_time = maxIdle`: empty queue, zero
counter, then `_initialize_pool` with `minC` creation attempts. -/
def mk_pool (minC maxC : Nat) (maxIdle : Int) (oks : List Bool) (now : Int) : PoolState :=
  init_pool oks now
    { pool := [], active_connections := 0, connection_times := [],
      closed := false, max_connections := maxC, min_connections := minC,
      max_idle_time := maxIdle, next_id := 0 }

/-- Embeds `ConnectionPool.close_all`: flips `_closed`, drains and closes every idle
connection, zeroes `_active_connections` and clears `_connection_times`. -/
def close_all (st : PoolState) : PoolState :=
  { st with closed := true, pool := [], active_connections := 0,
            connection_times := [] }

/-- The dictionary returned by `ConnectionPool.get_stats`. -/
structure PoolStats where
  active_connections : Int
  available_connections : Nat
  max_connections : Nat
  min_connections : Nat
  pool_closed : Bool
deriving DecidableEq

/-- Embeds `ConnectionPool.get_stats`. -/
def get_stats (st : PoolState) : PoolStats :=
  { active_connections := st.active_connections,
    available_connections := st.pool.length,
    max_connections := st.max_connections,
    min_connections := st.min_connections,
    pool_closed := st.closed }

/-- Errors escaping `PooledDatabaseConnection.cursor`: a pool error from
`get_connection`, or the exception raised by the caller's work inside the
`with` block. -/
inductive CursorError (E : Type)
  | pool (e : PoolError)
  | user (e : E)
deriving DecidableEq

/-- Embeds `PooledDatabaseConnection.cursor` (and `execute_query`, which runs its
work inside it), with the caller's work abstracted as `fn` returning
`Except`: acquire a connection; if acquisition fails nothing was obtained and
the error propagates; otherwise run `fn`, commit on success or roll back and
re-raise on failure, and in the outer `finally` always hand the connection to
`return_connection`. -/
def cursor {E A : Type} (env : ConnEnv) (steps : List IterEnv)
    (start timeout nowR : Int) (st : PoolState) (fn : Nat → Except E A) :
    Except (CursorError E) A × PoolState × List PoolEvent :=
  match get_connection env steps start timeout st with
  | (.error e, st', tr) => (.error (.pool e), st', tr)
  | (.ok c, st', tr) =>
    match fn c with
    | .ok a =>
      let r := return_connection env nowR st' c
      (.ok a, r.1, tr ++ PoolEvent.commit c :: r.2)
    | .error e =>
      let r := return_connection env nowR st' c
      (.error (.user e), r.1, tr ++ PoolEvent.rollback c :: r.2)

/-- Registry state for one fixed logical database name (the `'local'` key;
`'sensor'` is symmetric): the map entry for the name, and a counter of how
many `PooledDatabaseConnection` instances have been constructed, which also
serves as the identity of the next instance. -/
structure RegState where
  instances : Option Nat
  created : Nat
deriving DecidableEq

/-- Program counter of a thread running `DatabaseManager._get_pooled_local_db`,
whose membership test and construct-and-store are two separate steps with no
lock held between them. -/
inductive TPC
  | start
  | missing
  | done (p : Nat)
deriving DecidableEq

/-- One atomic step of a thread inside `DatabaseManager._get_pooled_local_db`:
first the unlocked membership check of `_pooled_instances`, then (if the key
was absent) the construction and store, which may overwrite a racing thread's
entry. -/
def dm_get_step : TPC → RegState → TPC × RegState
  | .start, r =>
    match r.instances with
    | some p => (.done p, r)
    | none => (.missing, r)
  | .missing, r => (.done r.created, { instances := some r.created, created := r.created + 1 })
  | .done p, r => (.done p, r)

/-- Two threads concurrently inside `DatabaseManager._get_pooled_local_db`. -/
structure DMSys where
  t1 : TPC
  t2 : TPC
  reg : RegState
deriving DecidableEq

/-- Interleaved execution of the two threads under a schedule: `true` steps
thread 1, `false` steps thread 2. -/
def dm_run : List Bool → DMSys → DMSys
  | [], s => s
  | b :: rest, s =>
    if b then
      let p := dm_get_step s.t1 s.reg
      dm_run rest { s with t1 := p.1, reg := p.2 }
    else
      let p := dm_get_step s.t2 s.reg
      dm_run rest { s with t2 := p.1, reg := p.2 }

/-- Embeds `PooledDatabaseManager.get_local_db`: the whole check-construct-return runs
under `cls._lock`, so concurrent calls serialize into atomic executions of
this function. -/
def pdm_get (r : RegState) : Nat × RegState :=
  match r.instances with
  | some p => (p, r)
  | none => (r.created, { instances := some r.created, created := r.created + 1 })

/-- A serialized sequence of `n` lock-protected `PooledDatabaseManager`
getter calls, collecting the instance returned to each caller. -/
def pdm_run : Nat → RegState → List Nat × RegState
  | 0, r => ([], r)
  | n + 1, r =>
    let p := pdm_get r
    let q := pdm_run n p.2
    (p.1 :: q.1, q.2)

/-- Pool state together with the multiset of connections currently leased to
callers (the environment's hands; not a field of the Python object). -/
structure SysState where
  ps : PoolState
  leased : List Nat
deriving DecidableEq

/-- A completed `get_connection` call as one system step: a successful call
adds the handed-out connection to the leased multiset. -/
def step_get (env : ConnEnv) (steps : List IterEnv) (start timeout : Int)
    (s : SysState) : SysState :=
  match get_connection env steps start timeout s.ps with
  | (.ok c, st', _) => ⟨st', c :: s.leased⟩
  | (.error _, st', _) => ⟨st', s.leased⟩

/-- A `return_connection` call on a leased connection as one system step. -/
def step_return (env : ConnEnv) (now : Int) (c : Nat) (s : SysState) : SysState :=
  ⟨(return_connection env now s.ps c).1, s.leased.erase c⟩

/-- A `close_all` call as one system step; leased connections stay in the
callers' hands. -/
def step_close (s : SysState) : SysState :=
  ⟨close_all s.ps, s.leased⟩

/-- States reachable from a freshly constructed pool with
`0 ≤ min_connections ≤ max_connections` by any interleaved sequence of
`get_connection`, `return_connection` (of a leased connection) and
`close_all` steps. -/
inductive Reachable : SysState → Prop
  | init (minC maxC : Nat) (maxIdle now : Int) (oks : List Bool)
      (hmm : minC ≤ maxC) (hlen : oks.length = minC) :
      Reachable ⟨mk_pool minC maxC maxIdle oks now, []⟩
  | get (env : ConnEnv) (steps : List IterEnv) (start timeout : Int) (s : SysState) :
      Reachable s → Reachable (step_get env steps start timeout s)
  | ret (env : ConnEnv) (now : Int) (c : Nat) (s : SysState) :
      Reachable s → c ∈ s.leased → Reachable (step_return env now c s)
  | close (s : SysState) : Reachable s → Reachable (step_close s)

/-- The inductive invariant tying the counter to the queue and the leases:
while open, `_active_connections` counts exactly the idle plus the leased
connections; once closed, the counter is zero and the queue empty; and the
counter never exceeds `max_connections`. -/
def SysInv (s : SysState) : Prop :=
  s.ps.active_connections ≤ (s.ps.max_connections : Int) ∧
  (s.ps.closed = false →
    s.ps.active_connections = (s.ps.pool.length : Int) + (s.leased.length : Int)) ∧
  (s.ps.closed = true → s.ps.active_connections = 0 ∧ s.ps.pool = [])

/-- Helper: each run of the acquire retry loop preserves the closed flag and
the configuration, keeps the counter below the capacity bound, and changes the
counter-versus-queue balance by exactly one when a connection is handed out. -/
theorem get_connection_loop_balance (env : ConnEnv) (start timeout : Int) :
    ∀ (steps : List IterEnv) (st : PoolState) (L : Int),
      st.active_connections ≤ (st.max_connections : Int) →
      st.active_connections = (st.pool.length : Int) + L →
      ∀ r st' tr, get_connection_loop env start timeout st steps = (r, st', tr) →
        st'.closed = st.closed ∧ st'.max_connections = st.max_connections ∧
        st'.active_connections ≤ (st'.max_connections : Int) ∧
        st'.active_connections = (st'.pool.length : Int) + L +
          (match r with | .ok _ => 1 | .error _ => 0) := by
  intro steps
  induction steps with
  | nil =>
    intro st L hle heq r st' tr hrun
    simp only [get_connection_loop, Prod.mk.injEq] at hrun
    obtain ⟨h1, h2, h3⟩ := hrun
    subst h1; subst h2
    refine ⟨rfl, rfl, hle, ?_⟩
    simpa using heq
  | cons step rest ih =>
    intro st L hle heq r st' tr hrun
    simp only [get_connection_loop] at hrun
    split at hrun
    · split at hrun
      · rename_i c ps hp
        split at hrun
        · rename_i hv
          simp only [Prod.mk.injEq] at hrun
          obtain ⟨h1, h2, h3⟩ := hrun
          subst h1; subst h2
          rw [hp] at heq
          refine ⟨rfl, rfl, hle, ?_⟩
          simp only [List.length_cons] at heq ⊢
          push_cast at heq ⊢
          omega
        · simp only [Prod.mk.injEq] at hrun
          obtain ⟨h1, h2, h3⟩ := hrun
          subst h1; subst h2
          have key := ih (close_connection
              { st with pool := ps,
                        active_connections := st.active_connections - 1 } c) L
            (by simp only [close_connection]; omega)
            (by
              simp only [close_connection]
              rw [hp] at heq
              simp only [List.length_cons] at heq
              push_cast at heq ⊢
              omega) _ _ _ rfl
          simpa only [close_connection] using key
      · rename_i hp
        split at hrun
        · rename_i hlt
          split at hrun
          · simp only [Prod.mk.injEq] at hrun
            obtain ⟨h1, h2, h3⟩ := hrun
            subst h1; subst h2
            rw [hp] at heq
            simp only [List.length_nil, Nat.cast_zero] at heq
            refine ⟨rfl, rfl, by simp only []; omega, ?_⟩
            simp only [hp, List.length_nil, Nat.cast_zero]
            omega
          · simp only [Prod.mk.injEq] at hrun
            obtain ⟨h1, h2, h3⟩ := hrun
            subst h1; subst h2
            exact ih st L hle heq _ _ _ rfl
        · exact ih st L hle heq _ _ _ hrun
    · simp only [Prod.mk.injEq] at hrun
      obtain ⟨h1, h2, h3⟩ := hrun
      subst h1; subst h2
      refine ⟨rfl, rfl, hle, ?_⟩
      simpa using heq

/-- Helper: pool warm-up keeps the counter equal to the queue length and grows
the queue by at most one per creation attempt, preserving the flag and
configuration fields. -/
theorem init_pool_balance (now : Int) :
    ∀ (oks : List Bool) (st : PoolState),
      st.active_connections = (st.pool.length : Int) →
      (init_pool oks now st).closed = st.closed ∧
      (init_pool oks now st).max_connections = st.max_connections ∧
      (init_pool oks now st).active_connections = ((init_pool oks now st).pool.length : Int) ∧
      (init_pool oks now st).pool.length ≤ st.pool.length + oks.length := by
  intro oks
  induction oks with
  | nil =>
    intro st h
    simpa [init_pool] using h
  | cons ok rest ih =>
    intro st h
    have hstep : (init_pool_step now st ok).closed = st.closed ∧
        (init_pool_step now st ok).max_connections = st.max_connections ∧
        (init_pool_step now st ok).active_connections
          = ((init_pool_step now st ok).pool.length : Int) ∧
        (init_pool_step now st ok).pool.length ≤ st.pool.length + 1 := by
      unfold init_pool_step
      split
      · split
        · exact ⟨rfl, rfl, h, by simp⟩
        · refine ⟨rfl, rfl, ?_, ?_⟩
          · dsimp only
            simp only [List.length_append, List.length_cons, List.length_nil]
            push_cast
            omega
          · dsimp only
            simp only [List.length_append, List.length_cons, List.length_nil]
            omega
      · exact ⟨rfl, rfl, h, by omega⟩
    have hrest := ih (init_pool_step now st ok) hstep.2.2.1
    have hfold : init_pool (ok :: rest) now st = init_pool rest now (init_pool_step now st ok) := by
      simp [init_pool]
    rw [hfold]
    refine ⟨hrest.1.trans hstep.1, hrest.2.1.trans hstep.2.1, hrest.2.2.1, ?_⟩
    have := hrest.2.2.2
    simp only [List.length_cons]
    omega

/-- Helper: a freshly constructed pool with `min_connections ≤ max_connections`
is open, has its counter equal to its queue length, and is within capacity. -/
theorem mk_pool_balance (minC maxC : Nat) (maxIdle now : Int) (oks : List Bool)
    (hmm : minC ≤ maxC) (hlen : oks.length = minC) :
    (mk_pool minC maxC maxIdle oks now).closed = false ∧
    (mk_pool minC maxC maxIdle oks now).max_connections = maxC ∧
    (mk_pool minC maxC maxIdle oks now).active_connections
      = ((mk_pool minC maxC maxIdle oks now).pool.length : Int) ∧
    (mk_pool minC maxC maxIdle oks now).active_connections ≤ (maxC : Int) := by
  unfold mk_pool
  have h := init_pool_balance now oks
    { pool := [], active_connections := 0, connection_times := [],
      closed := false, max_connections := maxC, min_connections := minC,
      max_idle_time := maxIdle, next_id := 0 } (by simp)
  simp only [List.length_nil, Nat.zero_add, hlen] at h
  refine ⟨h.1, h.2.1, h.2.2.1, ?_⟩
  rw [h.2.2.1]
  have := h.2.2.2
  omega

/-- Helper: the state part of `return_connection`, with the event trace
projected away. -/
theorem return_connection_fst (env : ConnEnv) (now : Int) (st : PoolState) (c : Nat) :
    (return_connection env now st c).1 =
      if st.closed then close_connection st c
      else if is_connection_valid env now st c then
        (if queue_full st then
           close_connection { st with active_connections := st.active_connections - 1 } c
         else { st with pool := st.pool ++ [c] })
      else close_connection { st with active_connections := st.active_connections - 1 } c := by
  unfold return_connection
  split
  · rfl
  · split
    · dsimp only
      split
      · rfl
      · rfl
    · rfl

/-- Helper: every `get_connection` system step preserves the inductive
invariant `SysInv`. -/
theorem sysInv_step_get (env : ConnEnv) (steps : List IterEnv) (start timeout : Int)
    (s : SysState) (h : SysInv s) : SysInv (step_get env steps start timeout s) := by
  obtain ⟨hle, hopen, hclosed⟩ := h
  unfold step_get get_connection
  rcases hc : s.ps.closed with _ | _
  · rw [if_neg (by decide)]
    rcases hres : get_connection_loop env start timeout s.ps steps with ⟨r, st2, tr⟩
    have hbal := get_connection_loop_balance env start timeout steps s.ps
      ((s.leased.length : Int)) hle (hopen hc) r st2 tr hres
    obtain ⟨hcl, hmax, hle2, heq2⟩ := hbal
    rw [hc] at hcl
    rcases r with e | c
    · refine ⟨hle2, ?_, ?_⟩
      · intro
        dsimp only at heq2 ⊢
        omega
      · intro hcc
        dsimp only at hcc
        rw [hcl] at hcc
        exact absurd hcc (by decide)
    · refine ⟨hle2, ?_, ?_⟩
      · intro
        dsimp only at heq2 ⊢
        simp only [List.length_cons]
        push_cast at heq2 ⊢
        omega
      · intro hcc
        dsimp only at hcc
        rw [hcl] at hcc
        exact absurd hcc (by decide)
  · rw [if_pos rfl]
    exact ⟨hle, hopen, hclosed⟩

/-- Helper: every `return_connection` system step on a leased connection
preserves the inductive invariant `SysInv`. -/
theorem sysInv_step_return (env : ConnEnv) (now : Int) (c : Nat)
    (s : SysState) (hmem : c ∈ s.leased) (h : SysInv s) :
    SysInv (step_return env now c s) := by
  obtain ⟨hle, hopen, hclosed⟩ := h
  have hlen : (s.leased.erase c).length = s.leased.length - 1 :=
    List.length_erase_of_mem hmem
  have hpos : 0 < s.leased.length := List.length_pos.mpr (List.ne_nil_of_mem hmem)
  unfold step_return
  rw [return_connection_fst]
  rcases hc : s.ps.closed with _ | _
  · rw [if_neg (by decide)]
    have heq := hopen hc
    split
    · split
      · simp only [close_connection]
        refine ⟨?_, ?_, ?_⟩
        · dsimp only
          omega
        · intro
          dsimp only
          rw [hlen]
          omega
        · intro hcc
          dsimp only at hcc
          exact absurd hcc (by decide)
      · refine ⟨?_, ?_, ?_⟩
        · dsimp only
          omega
        · intro
          dsimp only
          rw [hlen]
          simp only [List.length_append, List.length_cons, List.length_nil]
          push_cast
          omega
        · intro hcc
          dsimp only at hcc
          exact absurd hcc (by decide)
    · simp only [close_connection]
      refine ⟨?_, ?_, ?_⟩
      · dsimp only
        omega
      · intro
        dsimp only
        rw [hlen]
        omega
      · intro hcc
        dsimp only at hcc
        exact absurd hcc (by decide)
  · rw [if_pos rfl]
    have hz := hclosed hc
    simp only [close_connection]
    refine ⟨?_, ?_, ?_⟩
    · dsimp only
      omega
    · intro hco
      dsimp only at hco
      exact absurd (hc.symm.trans hco) (by decide)
    · intro
      dsimp only
      exact hz

/-- Helper: every `close_all` system step preserves the inductive invariant
`SysInv`. -/
theorem sysInv_step_close (s : SysState) (h : SysInv s) : SysInv (step_close s) := by
  obtain ⟨hle, _, _⟩ := h
  unfold step_close close_all
  refine ⟨?_, ?_, ?_⟩
  · dsimp only
    omega
  · intro hco
    dsimp only at hco
    exact absurd hco (by simp)
  · intro
    exact ⟨rfl, rfl⟩

/-- Helper: the inductive invariant holds in every reachable state. -/
theorem reachable_sysInv (s : SysState) (h : Reachable s) : SysInv s := by
  induction h with
  | init minC maxC maxIdle now oks hmm hlen =>
    obtain ⟨h1, h2, h3, h4⟩ := mk_pool_balance minC maxC maxIdle now oks hmm hlen
    refine ⟨by rw [h2]; exact h4, ?_, ?_⟩
    · intro
      simpa using h3
    · intro hcc
      rw [h1] at hcc
      exact absurd hcc (by simp)
  | get env steps start timeout s _ ih => exact sysInv_step_get env steps start timeout s ih
  | ret env now c s _ hmem ih => exact sysInv_step_return env now c s hmem ih
  | close s _ ih => exact sysInv_step_close s ih

/-- C1: in every state reachable from a pool constructed with
`0 ≤ min_connections ≤ max_connections` by interleaved `get_connection`,
`return_connection` and `close_all` steps, `_active_connections` never exceeds
`max_connections` and the idle queue size never exceeds `_active_connections`. -/
theorem claim1_counter_invariant (s : SysState) (h : Reachable s) :
    s.ps.active_connections ≤ (s.ps.max_connections : Int) ∧
    (s.ps.pool.length : Int) ≤ s.ps.active_connections := by
  obtain ⟨hle, hopen, hclosed⟩ := reachable_sysInv s h
  refine ⟨hle, ?_⟩
  rcases hc : s.ps.closed with _ | _
  · have := hopen hc
    omega
  · obtain ⟨h0, hnil⟩ := hclosed hc
    simp [h0, hnil]

theorem claim1_counter_invariant_witness :
    (SysState.mk (mk_pool 2 5 3600 [true, true] 0) []).ps.active_connections
      ≤ ((SysState.mk (mk_pool 2 5 3600 [true, true] 0) []).ps.max_connections : Int) ∧
    ((SysState.mk (mk_pool 2 5 3600 [true, true] 0) []).ps.pool.length : Int)
      ≤ (SysState.mk (mk_pool 2 5 3600 [true, true] 0) []).ps.active_connections :=
  claim1_counter_invariant ⟨mk_pool 2 5 3600 [true, true] 0, []⟩
    (Reachable.init 2 5 3600 0 [true, true] (by decide) (by decide))

/-- Helper: the retry loop only ever finishes with a handout or the timeout
error; creation and validation failures are absorbed by the loop. -/
theorem get_connection_loop_result (env : ConnEnv) (start timeout : Int) :
    ∀ (steps : List IterEnv) (st : PoolState),
      (∃ c, (get_connection_loop env start timeout st steps).1 = .ok c) ∨
      (get_connection_loop env start timeout st steps).1 = .error .acquireTimeout := by
  intro steps
  induction steps with
  | nil =>
    intro st
    right
    rfl
  | cons step rest ih =>
    intro st
    simp only [get_connection_loop]
    split
    · split
      · split
        · left
          exact ⟨_, rfl⟩
        · exact ih _
      · split
        · split
          · left
            exact ⟨_, rfl⟩
          · exact ih st
        · exact ih st
    · right
      rfl

/-- C2: a `get_connection` call either hands out a connection, or fails with
the timeout error, or fails with the closed-pool error — and the latter only
when the pool is closed; creation failures and validation failures inside the
retry loop are never surfaced to the caller. -/
theorem claim2_error_absorption (env : ConnEnv) (steps : List IterEnv)
    (start timeout : Int) (st : PoolState) :
    (∃ c, (get_connection env steps start timeout st).1 = .ok c) ∨
    (get_connection env steps start timeout st).1 = .error .acquireTimeout ∨
    ((get_connection env steps start timeout st).1 = .error .poolClosed ∧
      st.closed = true) := by
  unfold get_connection
  split
  · right
    right
    exact ⟨rfl, by assumption⟩
  · rcases get_connection_loop_result env start timeout steps st with ⟨c, hc⟩ | he
    · exact Or.inl ⟨c, hc⟩
    · exact Or.inr (Or.inl he)

/-- C4: after `close_all`, `get_stats` reports the pool closed, every
`get_connection` raises the closed-pool error immediately with no retry
iteration and no state change, and every released connection is destroyed by
the closed branch of `return_connection` instead of being enqueued. -/
theorem claim4_closed_pool_semantics (st : PoolState) (env : ConnEnv)
    (steps : List IterEnv) (start timeout now : Int) (c : Nat) :
    (get_stats (close_all st)).pool_closed = true ∧
    get_connection env steps start timeout (close_all st)
      = (.error .poolClosed, close_all st, []) ∧
    (return_connection env now (close_all st) c).2 = [.destroy c] ∧
    (return_connection env now (close_all st) c).1.pool = [] :=
  ⟨rfl, rfl, rfl, rfl⟩

/-- C9: `close_all` unconditionally zeroes `_active_connections` and clears
the whole `_connection_times` map, however many connections are leased;
`get_stats` afterwards reports zero active connections, and a release on the
closed pool performs no counter bookkeeping — it only runs
`_close_connection`, leaving the counter at zero. -/
theorem claim9_close_all_bookkeeping (st : PoolState) (env : ConnEnv)
    (now : Int) (c : Nat) :
    (close_all st).active_connections = 0 ∧
    (close_all st).connection_times = [] ∧
    (get_stats (close_all st)).active_connections = 0 ∧
    return_connection env now (close_all st) c
      = (close_connection (close_all st) c, [.destroy c]) ∧
    (return_connection env now (close_all st) c).1.active_connections = 0 :=
  ⟨rfl, rfl, rfl, rfl, rfl⟩

/-- C10: on an open pool, a timeout value `≤ 0` makes `get_connection` raise
the timeout error at once — the loop guard is false on first evaluation under
a monotone clock, so no pop from the idle queue and no creation is ever
attempted (empty event trace) and the state is unchanged, even when valid
idle connections are available. -/
theorem claim10_nonpositive_timeout (env : ConnEnv) (steps : List IterEnv)
    (start timeout : Int) (st : PoolState)
    (hopen : st.closed = false) (ht : timeout ≤ 0)
    (hmono : ∀ s ∈ steps, start ≤ s.now) :
    get_connection env steps start timeout st = (.error .acquireTimeout, st, []) := by
  unfold get_connection
  rw [if_neg (by simp [hopen])]
  cases steps with
  | nil => rfl
  | cons step rest =>
    have h1 : start ≤ step.now := hmono step (by simp)
    have hng : ¬(step.now - start < timeout) := by omega
    simp only [get_connection_loop]
    rw [if_neg hng]

theorem claim10_nonpositive_timeout_witness :
    get_connection ⟨fun _ => true, fun _ => true⟩ [⟨3, true⟩] 0 0
        (mk_pool 1 5 3600 [true] 0)
      = (.error .acquireTimeout, mk_pool 1 5 3600 [true] 0, []) :=
  claim10_nonpositive_timeout ⟨fun _ => true, fun _ => true⟩ [⟨3, true⟩] 0 0
    (mk_pool 1 5 3600 [true] 0) (by decide) (by decide)
    (by
      intro s hs
      rw [List.mem_singleton] at hs
      subst hs
      decide)

/-- C3 as stated is false on the code at a concrete input: releasing a valid
connection does not stamp its last-activity timestamp (the entry keeps its old
value `0` instead of the release time `50`), and the event trace shows
validation happening before the rollback, not after. -/
theorem claim3_release_counterexample :
    tmLookup (return_connection ⟨fun _ => true, fun _ => true⟩ 50
        ⟨[], 1, [(7, 0)], false, 5, 0, 100, 8⟩ 7).1.connection_times 7 = some 0 ∧
    some (0 : Int) ≠ some (50 : Int) ∧
    (return_connection ⟨fun _ => true, fun _ => true⟩ 50
        ⟨[], 1, [(7, 0)], false, 5, 0, 100, 8⟩ 7).2
      = [.validate 7 true, .rollback 7, .enqueue 7] := by decide

/-- C3 amended: on an open pool, `return_connection` validates the connection
first; if it is valid the code rolls back and pushes it onto the idle queue
without updating its last-activity timestamp (the `connection_times` map is
untouched), unless the queue is at capacity, in which case it is destroyed
with `_active_connections` decremented; an invalid connection is likewise
destroyed with the counter decremented. -/
theorem claim3_release_behaviour (env : ConnEnv) (now : Int) (st : PoolState) (c : Nat)
    (hopen : st.closed = false) :
    (is_connection_valid env now st c = true → queue_full st = false →
      return_connection env now st c
        = ({ st with pool := st.pool ++ [c] },
           [.validate c true, .rollback c, .enqueue c])) ∧
    (is_connection_valid env now st c = true → queue_full st = true →
      return_connection env now st c
        = (close_connection { st with active_connections := st.active_connections - 1 } c,
           [.validate c true, .rollback c, .destroy c])) ∧
    (is_connection_valid env now st c = false →
      return_connection env now st c
        = (close_connection { st with active_connections := st.active_connections - 1 } c,
           [.validate c false, .destroy c])) := by
  refine ⟨?_, ?_, ?_⟩
  · intro hv hqf
    have hiso : env.isOpen c = true := by
      have hv2 := hv
      simp only [is_connection_valid, Bool.and_eq_true] at hv2
      exact hv2.1.1
    unfold return_connection
    rw [if_neg (by simp [hopen]), if_pos hv]
    dsimp only
    rw [if_pos hiso, if_neg (by simp [hqf])]
    simp
  · intro hv hqf
    have hiso : env.isOpen c = true := by
      have hv2 := hv
      simp only [is_connection_valid, Bool.and_eq_true] at hv2
      exact hv2.1.1
    unfold return_connection
    rw [if_neg (by simp [hopen]), if_pos hv]
    dsimp only
    rw [if_pos hiso, if_pos hqf]
    simp
  · intro hv
    unfold return_connection
    rw [if_neg (by simp [hopen]), if_neg (by simp [hv])]

theorem claim3_release_behaviour_witness :
    return_connection ⟨fun _ => true, fun _ => true⟩ 50
        ⟨[], 1, [(7, 0)], false, 5, 0, 100, 8⟩ 7
      = (⟨[7], 1, [(7, 0)], false, 5, 0, 100, 8⟩,
         [.validate 7 true, .rollback 7, .enqueue 7]) :=
  (claim3_release_behaviour ⟨fun _ => true, fun _ => true⟩ 50
      ⟨[], 1, [(7, 0)], false, 5, 0, 100, 8⟩ 7 rfl).1 (by decide) (by decide)

/-- C5 as stated is false for `DatabaseManager`, whose pooled getters hold no
lock: with two threads both inside `_get_pooled_local_db`, the interleaving
check, check, construct-and-store, construct-and-store performs two
constructions and hands the racing callers two different instances. -/
theorem claim5_dm_race_counterexample :
    dm_run [true, false, true, false] ⟨.start, .start, ⟨none, 0⟩⟩
      = ⟨.done 0, .done 1, ⟨some 1, 2⟩⟩ ∧ (0 : Nat) ≠ 1 := by decide

/-- Helper: once the registry entry is populated, further lock-serialized
getter calls neither construct nor change anything and all return the stored
instance. -/
theorem pdm_run_saturated (k c : Nat) :
    ∀ m, pdm_run m ⟨some k, c⟩ = (List.replicate m k, ⟨some k, c⟩) := by
  intro m
  induction m with
  | zero => rfl
  | succ m ih =>
    simp only [pdm_run, pdm_get, ih, List.replicate_succ]

/-- C5 amended: `PooledDatabaseManager`'s getters run the whole
check-construct-return under `cls._lock`, so racing calls serialize; from an
empty registry, any `n ≥ 1` serialized calls all receive the same instance
and exactly one construction happens (the counter rises from `k` to `k + 1`).
`DatabaseManager`'s pooled getters are unsynchronized and do not close the
race. -/
theorem claim5_pdm_single_construction (k n : Nat) (hn : 1 ≤ n) :
    (pdm_run n ⟨none, k⟩).1 = List.replicate n k ∧
    (pdm_run n ⟨none, k⟩).2 = ⟨some k, k + 1⟩ := by
  cases n with
  | zero => exact absurd hn (by decide)
  | succ m =>
    simp [pdm_run, pdm_get, pdm_run_saturated, List.replicate_succ]

theorem claim5_pdm_single_construction_witness :
    (pdm_run 3 ⟨none, 0⟩).1 = List.replicate 3 0 ∧
    (pdm_run 3 ⟨none, 0⟩).2 = ⟨some 0, 0 + 1⟩ :=
  claim5_pdm_single_construction 0 3 (by decide)

/-- Helper: any connection handed out by the retry loop either came from the
idle queue or is a fresh creation whose identity is at or above the current
fresh counter. -/
theorem get_connection_loop_ok_mem (env : ConnEnv) (start timeout : Int) :
    ∀ (steps : List IterEnv) (st : PoolState) (c : Nat),
      (get_connection_loop env start timeout st steps).1 = .ok c →
      c ∈ st.pool ∨ st.next_id ≤ c := by
  intro steps
  induction steps with
  | nil =>
    intro st c h
    exact absurd h (by simp [get_connection_loop])
  | cons step rest ih =>
    intro st c h
    simp only [get_connection_loop] at h
    split at h
    · split at h
      · rename_i d ps hp
        split at h
        · simp only [Except.ok.injEq] at h
          subst h
          left
          rw [hp]
          exact List.mem_cons_self _ _
        · rcases ih _ c h with hmem | hge
          · left
            rw [hp]
            exact List.mem_cons_of_mem _ hmem
          · right
            exact hge
      · split at h
        · split at h
          · simp only [Except.ok.injEq] at h
            subst h
            right
            exact le_refl _
          · exact ih st c h
        · exact ih st c h
    · exact absurd h (by simp)

/-- C6: a connection whose recorded last-activity timestamp is more than
`max_idle_time` in the past is judged invalid by `_is_connection_valid`
whatever the open and ping probes say; when such a stale connection heads the
idle queue and the loop guard passes, `get_connection`'s loop destroys it,
decrements `_active_connections` and continues with the rest of the queue —
and the stale connection is never the one handed out (its identity being
absent from the rest of the queue and below the fresh-identity counter). -/
theorem claim6_stale_eviction (env : ConnEnv) (st : PoolState) (c : Nat)
    (ps : List Nat) (t start timeout : Int) (step : IterEnv) (steps : List IterEnv)
    (hpool : st.pool = c :: ps) (hrec : tmLookup st.connection_times c = some t)
    (hstale : st.max_idle_time < step.now - t)
    (hnotin : c ∉ ps) (hfresh : c < st.next_id) :
    is_connection_valid env step.now st c = false ∧
    (get_connection_loop env start timeout st (step :: steps)).1 ≠ .ok c ∧
    (step.now - start < timeout →
      get_connection_loop env start timeout st (step :: steps)
        = ((get_connection_loop env start timeout
              (close_connection
                { st with pool := ps,
                          active_connections := st.active_connections - 1 } c) steps).1,
           (get_connection_loop env start timeout
              (close_connection
                { st with pool := ps,
                          active_connections := st.active_connections - 1 } c) steps).2.1,
           .validate c false :: .destroy c ::
             (get_connection_loop env start timeout
               (close_connection
                 { st with pool := ps,
                           active_connections := st.active_connections - 1 } c) steps).2.2)) := by
  have hv : is_connection_valid env step.now st c = false := by
    have hd : ¬(step.now - t ≤ st.max_idle_time) := by omega
    simp [is_connection_valid, hrec, hd]
  refine ⟨hv, ?_, ?_⟩
  · intro hok
    simp only [get_connection_loop] at hok
    split at hok
    · rw [hpool] at hok
      simp only [hv] at hok
      simp only [Bool.false_eq_true, if_false] at hok
      rcases get_connection_loop_ok_mem env start timeout steps _ c hok with hmem | hge
      · simp only [close_connection] at hmem
        exact hnotin hmem
      · simp only [close_connection] at hge
        omega
    · exact absurd hok (by simp)
  · intro hg
    simp only [get_connection_loop]
    rw [if_pos hg, hpool]
    simp only [hv, Bool.false_eq_true, if_false]

theorem claim6_stale_eviction_witness :
    is_connection_valid ⟨fun _ => true, fun _ => true⟩ 100
        ⟨[7], 1, [(7, 0)], false, 5, 0, 10, 8⟩ 7 = false ∧
    (get_connection_loop ⟨fun _ => true, fun _ => true⟩ 0 30
        ⟨[7], 1, [(7, 0)], false, 5, 0, 10, 8⟩ [⟨100, true⟩]).1 ≠ .ok 7 ∧
    ((100 : Int) - 0 < 30 →
      get_connection_loop ⟨fun _ => true, fun _ => true⟩ 0 30
          ⟨[7], 1, [(7, 0)], false, 5, 0, 10, 8⟩ [⟨100, true⟩]
        = ((get_connection_loop ⟨fun _ => true, fun _ => true⟩ 0 30
              (close_connection ⟨[], 0, [(7, 0)], false, 5, 0, 10, 8⟩ 7) []).1,
           (get_connection_loop ⟨fun _ => true, fun _ => true⟩ 0 30
              (close_connection ⟨[], 0, [(7, 0)], false, 5, 0, 10, 8⟩ 7) []).2.1,
           .validate 7 false :: .destroy 7 ::
             (get_connection_loop ⟨fun _ => true, fun _ => true⟩ 0 30
               (close_connection ⟨[], 0, [(7, 0)], false, 5, 0, 10, 8⟩ 7) []).2.2)) :=
  claim6_stale_eviction ⟨fun _ => true, fun _ => true⟩
    ⟨[7], 1, [(7, 0)], false, 5, 0, 10, 8⟩ 7 [] 0 0 30 ⟨100, true⟩ []
    rfl (by decide) (by decide) (by decide) (by decide)

/-- C7: the scoped wrapper always hands an acquired connection back to
`return_connection`: when acquisition fails nothing was acquired and the pool
error propagates; when it succeeds, the final pool state is the released one
on success and failure alike, the transaction is committed on the work
function's success, and on its failure the rollback is issued before the
release events and the exception is propagated. -/
theorem claim7_scoped_release {E A : Type} (env : ConnEnv) (steps : List IterEnv)
    (start timeout nowR : Int) (st : PoolState) (fn : Nat → Except E A) :
    (∀ e st' tr, get_connection env steps start timeout st = (.error e, st', tr) →
       cursor env steps start timeout nowR st fn = (.error (.pool e), st', tr)) ∧
    (∀ c st' tr, get_connection env steps start timeout st = (.ok c, st', tr) →
       (cursor env steps start timeout nowR st fn).2.1
           = (return_connection env nowR st' c).1 ∧
       (∀ a, fn c = .ok a →
          cursor env steps start timeout nowR st fn
            = (.ok a, (return_connection env nowR st' c).1,
               tr ++ PoolEvent.commit c :: (return_connection env nowR st' c).2)) ∧
       (∀ e, fn c = .error e →
          cursor env steps start timeout nowR st fn
            = (.error (.user e), (return_connection env nowR st' c).1,
               tr ++ PoolEvent.rollback c :: (return_connection env nowR st' c).2))) := by
  constructor
  · intro e st' tr hget
    unfold cursor
    rw [hget]
  · intro c st' tr hget
    refine ⟨?_, ?_, ?_⟩
    · unfold cursor
      rw [hget]
      rcases hf : fn c with e | a
      · simp only [hf]
      · simp only [hf]
    · intro a hf
      unfold cursor
      rw [hget]
      simp only [hf]
    · intro e hf
      unfold cursor
      rw [hget]
      simp only [hf]

theorem claim7_scoped_release_witness :
    cursor (E := Nat) ⟨fun _ => true, fun _ => true⟩ [⟨1, true⟩] 0 30 2
        ⟨[3], 1, [(3, 0)], false, 5, 0, 100, 4⟩ (fun _ => .ok 42)
      = (.ok 42, ⟨[3], 1, [(3, 1)], false, 5, 0, 100, 4⟩,
         [.validate 3 true, .handout 3, .commit 3,
          .validate 3 true, .rollback 3, .enqueue 3]) :=
  ((claim7_scoped_release ⟨fun _ => true, fun _ => true⟩ [⟨1, true⟩] 0 30 2
      ⟨[3], 1, [(3, 0)], false, 5, 0, 100, 4⟩ (fun _ => .ok 42)).2 3
    ⟨[], 1, [(3, 1)], false, 5, 0, 100, 4⟩ [.validate 3 true, .handout 3]
    rfl).2.1 42 rfl

/-- Helper: looking up the key just stamped in the `_connection_times` map
yields the new timestamp. -/
theorem tmLookup_insert (m : TimeMap) (c : Nat) (t : Int) :
    tmLookup (tmInsert m c t) c = some t := by
  simp [tmInsert, tmLookup]

/-- Helper: erasing one key of the `_connection_times` map leaves the other
keys' entries unchanged. -/
theorem tmLookup_erase_ne (m : TimeMap) (c d : Nat) (h : d ≠ c) :
    tmLookup (tmErase m c) d = tmLookup m d := by
  induction m with
  | nil => rfl
  | cons p rest ih =>
    obtain ⟨k, v⟩ := p
    simp only [tmErase, tmLookup]
    by_cases hk : k = c
    · rw [if_pos hk, ih, if_neg (by rw [hk]; exact fun hcd => h hcd.symm)]
    · rw [if_neg hk]
      simp only [tmLookup]
      by_cases hd : k = d
      · rw [if_pos hd, if_pos hd]
      · rw [if_neg hd, if_neg hd, ih]

/-- Helper: stamping one key of the `_connection_times` map leaves the other
keys' entries unchanged. -/
theorem tmLookup_insert_ne (m : TimeMap) (c d : Nat) (t : Int) (h : d ≠ c) :
    tmLookup (tmInsert m c t) d = tmLookup m d := by
  simp only [tmInsert, tmLookup]
  rw [if_neg (fun hc => h hc.symm)]
  exact tmLookup_erase_ne m c d h

/-- C8 as stated is false on the code at a concrete input: on an open,
non-saturated pool whose idle queue is empty, acquire creates a fresh
connection (counter 0 becomes 1) and the immediate release enqueues it, so
the round-trip leaves the counter one higher and the idle queue one longer
than before the acquire. -/
theorem claim8_roundtrip_counterexample :
    (get_connection ⟨fun _ => true, fun _ => true⟩ [⟨0, true⟩] 0 30
        ⟨[], 0, [], false, 5, 0, 100, 0⟩).1 = .ok 0 ∧
    (return_connection ⟨fun _ => true, fun _ => true⟩ 1
        (get_connection ⟨fun _ => true, fun _ => true⟩ [⟨0, true⟩] 0 30
          ⟨[], 0, [], false, 5, 0, 100, 0⟩).2.1 0).1.active_connections = 1 ∧
    (1 : Int) ≠ 0 ∧
    (return_connection ⟨fun _ => true, fun _ => true⟩ 1
        (get_connection ⟨fun _ => true, fun _ => true⟩ [⟨0, true⟩] 0 30
          ⟨[], 0, [], false, 5, 0, 100, 0⟩).2.1 0).1.pool = [0] ∧
    ([0] : List Nat) ≠ [] :=
  ⟨rfl, by decide, by decide, by decide, by decide⟩

/-- C8 amended: when the acquisition is served from the idle queue — the
queue is nonempty and its head validates — acquire immediately followed by
release restores `_active_connections` exactly and restores the idle queue as
a multiset (the head rotates to the back), the only change being the head's
re-stamped last-activity timestamp; a round-trip that instead creates a
connection grows the pool. -/
theorem claim8_roundtrip_rotation (env : ConnEnv) (st : PoolState) (c : Nat)
    (ps : List Nat) (step : IterEnv) (rest : List IterEnv) (start timeout nowR : Int)
    (hopen : st.closed = false) (hpool : st.pool = c :: ps)
    (hcap : st.pool.length ≤ st.max_connections)
    (hg : step.now - start < timeout)
    (hv : is_connection_valid env step.now st c = true)
    (hfresh : nowR - step.now ≤ st.max_idle_time) :
    get_connection env (step :: rest) start timeout st
      = (.ok c,
         { st with pool := ps,
                   connection_times := tmInsert st.connection_times c step.now },
         [.validate c true, .handout c]) ∧
    (return_connection env nowR
        { st with pool := ps,
                  connection_times := tmInsert st.connection_times c step.now } c).1
      = { st with pool := ps ++ [c],
                  connection_times := tmInsert st.connection_times c step.now } ∧
    List.Perm (ps ++ [c]) st.pool ∧
    (return_connection env nowR
        { st with pool := ps,
                  connection_times := tmInsert st.connection_times c step.now } c).1.active_connections
      = st.active_connections ∧
    (∀ d, d ≠ c → tmLookup (tmInsert st.connection_times c step.now) d
      = tmLookup st.connection_times d) := by
  have hio : env.isOpen c = true ∧ env.pingOk c = true := by
    simp only [is_connection_valid, Bool.and_eq_true] at hv
    exact ⟨hv.1.1, hv.1.2⟩
  have hlen : ps.length < st.max_connections := by
    rw [hpool] at hcap
    simp only [List.length_cons] at hcap
    omega
  have h2 : (return_connection env nowR
      { st with pool := ps,
                connection_times := tmInsert st.connection_times c step.now } c).1
      = { st with pool := ps ++ [c],
                  connection_times := tmInsert st.connection_times c step.now } := by
    have hv2 : is_connection_valid env nowR
        { st with pool := ps,
                  connection_times := tmInsert st.connection_times c step.now } c = true := by
      simp [is_connection_valid, tmLookup_insert, hio.1, hio.2, hfresh]
    have hqf : queue_full
        { st with pool := ps,
                  connection_times := tmInsert st.connection_times c step.now } = false := by
      simp only [queue_full]
      dsimp only
      simp only [Bool.and_eq_false_iff, decide_eq_false_iff_not]
      right
      omega
    rw [return_connection_fst, if_neg (by simp [hopen]), if_pos hv2,
      if_neg (by simp [hqf])]
  refine ⟨?_, h2, ?_, by rw [h2], ?_⟩
  · unfold get_connection
    rw [if_neg (by simp [hopen])]
    simp only [get_connection_loop]
    rw [if_pos hg, hpool]
    simp [hv]
  · rw [hpool]
    exact List.perm_append_singleton c ps
  · intro d hd
    exact tmLookup_insert_ne st.connection_times c d step.now hd

theorem claim8_roundtrip_rotation_witness :
    get_connection ⟨fun _ => true, fun _ => true⟩ [⟨1, true⟩] 0 30
        ⟨[4], 1, [(4, 0)], false, 5, 0, 100, 5⟩
      = (.ok 4, ⟨[], 1, [(4, 1)], false, 5, 0, 100, 5⟩,
         [.validate 4 true, .handout 4]) ∧
    (return_connection ⟨fun _ => true, fun _ => true⟩ 2
        ⟨[], 1, [(4, 1)], false, 5, 0, 100, 5⟩ 4).1
      = ⟨[4], 1, [(4, 1)], false, 5, 0, 100, 5⟩ ∧
    List.Perm [4] [4] ∧
    (return_connection ⟨fun _ => true, fun _ => true⟩ 2
        ⟨[], 1, [(4, 1)], false, 5, 0, 100, 5⟩ 4).1.active_connections = 1 ∧
    tmLookup (tmInsert [(4, 0)] 4 1) 9 = tmLookup [(4, 0)] 9 :=
  have h := claim8_roundtrip_rotation ⟨fun _ => true, fun _ => true⟩
    ⟨[4], 1, [(4, 0)], false, 5, 0, 100, 5⟩ 4 [] ⟨1, true⟩ [] 0 30 2
    rfl rfl (by decide) (by decide) (by decide) (by decide)
  ⟨h.1, h.2.1, h.2.2.1, h.2.2.2.1, h.2.2.2.2 9 (by decide)⟩

end MeteoAPI
